import Mathlib

/- Verification of the futures order-management and trailing-stop engine of
space_time_pipeline (file src/space_time_pipeline/trader/binance.py, class
BinanceTrader).

Modelling conventions:
- Python floats are modelled as exact rationals.  All arithmetic in the
  trader is plain +,-,*,/ on decimal inputs, so the rational model tracks
  the intent of the code exactly; Python round(x, n) is round-half-to-even
  on the scaled value, modelled by roundHalfEven below.
- Exchange (Binance SDK) calls are modelled as oracle responses of type
  Except PyErr _, one field per call site; a raised Python exception is the
  .error case.  try/except blocks become matches on those responses.
- Pure helper methods keep their Python names. -/

attribute [local semireducible] Rat.mul Rat.inv Rat.add Rat.sub

/-- Python exception hierarchy as far as the trader distinguishes it:
BinanceAPIException (caught separately), ValueError, ZeroDivisionError,
TypeError, and anything else.  All of these are subclasses of Exception,
so an `except Exception` clause catches every constructor. -/
inductive PyErr where
  | api (msg : String)
  | valueErr (msg : String)
  | zeroDiv
  | typeErr
  | other (msg : String)
deriving DecidableEq, Repr

/-- True exactly for BinanceAPIException, the class named in the narrower
except clauses of the trader. -/
def PyErr.isApi : PyErr → Bool
  | .api _ => true
  | _ => false

/-- One row of futures_position_information, with the fields the trader
reads: symbol, positionAmt (signed), entryPrice, leverage. -/
structure PositionRow where
  symbol : String
  positionAmt : ℚ
  entryPrice : ℚ
  leverage : ℤ
deriving DecidableEq, Repr

/-- One open order as returned by futures_get_open_orders, with the fields
the trader reads: orderId, type, stopPrice. -/
structure OpenOrder where
  orderId : ℕ
  type : String
  stopPrice : ℚ
deriving DecidableEq, Repr

deriving instance DecidableEq for Except

/-- An order-placement request as assembled for futures_create_order.
reduceOnly is false when the Python call omits the parameter (the API
default). -/
structure OrderReq where
  side : String
  type : String
  stopPrice : ℚ
  qty : ℚ
  reduceOnly : Bool
deriving DecidableEq, Repr

/-- Kernel-computable floor of a rational; agrees with Int.floor
(ratFloor_eq). -/
def ratFloor (q : ℚ) : ℤ := q.num / (q.den : ℤ)

/-- Python round(x) for a rational: round half to even (banker's
rounding), as in CPython's round builtin. -/
def roundHalfEven (q : ℚ) : ℤ :=
  if q - (ratFloor q : ℚ) < 1/2 then ratFloor q
  else if 1/2 < q - (ratFloor q : ℚ) then ratFloor q + 1
  else if 2 ∣ ratFloor q then ratFloor q else ratFloor q + 1

/-- Python round(x, 2). -/
def pyRound2 (q : ℚ) : ℚ := ((roundHalfEven (q * 100) : ℤ) : ℚ) / 100

/-- Python round(x, 6), used by calculate_quantity. -/
def pyRound6 (q : ℚ) : ℚ := ((roundHalfEven (q * 1000000) : ℤ) : ℚ) / 1000000

/-- BinanceTrader.round_to_precision: math.floor(value * 1000) / 1000. -/
def round_to_precision (value : ℚ) : ℚ := ((ratFloor (value * 1000) : ℤ) : ℚ) / 1000

/-- BinanceTrader.round_down_to_precision: the body is round(price, 2),
i.e. rounding to the NEAREST multiple of 0.01 (half to even), despite the
name of the method. -/
def round_down_to_precision (price : ℚ) : ℚ := pyRound2 price

/-- BinanceTrader.calculate_tp_sl_prices.  The Python body performs
(percent / 100) / leverage with no validation of leverage, so leverage = 0
raises ZeroDivisionError (modelled as .error .zeroDiv) and any nonzero
leverage, including negative values, produces a price pair.  Any
position_type other than the string LONG takes the SHORT branch of the
conditional expressions. -/
def calculate_tp_sl_prices (entry_price tp_percent sl_percent : ℚ)
    (position_type : String) (leverage : ℤ) : Except PyErr (ℚ × ℚ) :=
  if leverage = 0 then .error .zeroDiv
  else
    let tp_price :=
      if position_type = "LONG" then entry_price * (1 + (tp_percent / 100) / (leverage : ℚ))
      else entry_price * (1 - (tp_percent / 100) / (leverage : ℚ))
    let sl_price :=
      if position_type = "LONG" then entry_price * (1 - (sl_percent / 100) / (leverage : ℚ))
      else entry_price * (1 + (sl_percent / 100) / (leverage : ℚ))
    .ok (pyRound2 tp_price, pyRound2 sl_price)

/-- The pure arithmetic of BinanceTrader.get_roi once position amount,
entry price, leverage and mark price are in hand: 0 when flat or
entry price is 0, else the leveraged percent return (sign depending on the
side of the position). -/
def get_roi_calc (amt entry : ℚ) (lev : ℤ) (mark : ℚ) : ℚ :=
  if amt = 0 ∨ entry = 0 then 0
  else if 0 < amt then (lev : ℚ) * (mark - entry) / entry * 100
  else (lev : ℚ) * (entry - mark) / entry * 100

/-- Insertion of one trailing level into a list that is ascending by profit
trigger (first component). -/
def insertLevel (x : ℚ × ℚ) : List (ℚ × ℚ) → List (ℚ × ℚ)
  | [] => [x]
  | y :: ys => if y.1 ≤ x.1 then y :: insertLevel x ys else x :: y :: ys

/-- Python's sorted(trailing_levels, key=lambda x: x[0]) of
update_dynamic_stop_loss step 5: an ascending sort by profit trigger
(sortLevels_sorted, sortLevels_perm). -/
def sortLevels : List (ℚ × ℚ) → List (ℚ × ℚ)
  | [] => []
  | x :: xs => insertLevel x (sortLevels xs)

/-- The level-selection loop of update_dynamic_stop_loss step 5 on the
sorted ladder: remember the last level whose trigger is at most the profit,
break at the first level whose trigger exceeds it. -/
def pickLevel (profit : ℚ) : List (ℚ × ℚ) → Option (ℚ × ℚ)
  | [] => none
  | l :: ls => if l.1 ≤ profit then some ((pickLevel profit ls).getD l) else none

/-- Outcome classes of one futures_create_order call inside the retry loop
of check_and_create_stop_loss, matching its except clauses: success;
BinanceAPIException whose text contains the phrase about the order
immediately triggering (escalate the percent by 0.5 and retry); any other
BinanceAPIException (break); any other exception (break). -/
inductive SLResp where
  | success
  | transientReject
  | apiError
  | otherError
deriving DecidableEq, Repr

/-- One placement attempt of the retry loop: the stop-loss percent used and
the order request submitted at that percent. -/
structure SLAttempt where
  percent : ℚ
  req : OrderReq
deriving DecidableEq, Repr

/-- Result of the retry loop of check_and_create_stop_loss: the placement
attempts made in order, whether an order was successfully placed, and the
final value of stop_loss_percent. -/
structure SLOutcome where
  attempts : List SLAttempt
  placed : Bool
  finalPercent : ℚ
deriving DecidableEq, Repr

/-- The stop order submitted by the loop body of check_and_create_stop_loss:
type STOP_MARKET, SELL below entry for a long position, BUY above entry for
a short one, price rounded by round_down_to_precision, quantity
abs(positionAmt).  The Python call does not pass reduceOnly, so the request
carries the API default false. -/
def guardStopReq (amt entry lev percent : ℚ) : OrderReq :=
  if 0 < amt then
    { side := "SELL", type := "STOP_MARKET"
      stopPrice := round_down_to_precision (entry * (1 - (percent / 100) / lev))
      qty := |amt|, reduceOnly := false }
  else
    { side := "BUY", type := "STOP_MARKET"
      stopPrice := round_down_to_precision (entry * (1 + (percent / 100) / lev))
      qty := |amt|, reduceOnly := false }

/-- The while-loop of check_and_create_stop_loss.  resp k classifies the
exchange's answer to the k-th placement attempt.  If lev = 0 the stop-price
computation raises ZeroDivisionError inside the try, which the catch-all
except clause turns into a break before any attempt is made. -/
def slLoop (resp : ℕ → SLResp) (amt entry lev cap : ℚ) (k : ℕ) (p : ℚ) : SLOutcome :=
  if _hpc : p ≤ cap then
    if lev = 0 then ⟨[], false, p⟩
    else
      match resp k with
      | .success => ⟨[⟨p, guardStopReq amt entry lev p⟩], true, p⟩
      | .transientReject =>
        let rest := slLoop resp amt entry lev cap (k + 1) (p + 1/2)
        ⟨⟨p, guardStopReq amt entry lev p⟩ :: rest.attempts, rest.placed, rest.finalPercent⟩
      | .apiError => ⟨[⟨p, guardStopReq amt entry lev p⟩], false, p⟩
      | .otherError => ⟨[⟨p, guardStopReq amt entry lev p⟩], false, p⟩
  else ⟨[], false, p⟩
termination_by (⌈(cap - p) * 2⌉ + 1).toNat
decreasing_by
  have h1 : (0:ℚ) ≤ (cap - p) * 2 := by nlinarith
  have h2 : (0:ℤ) ≤ ⌈(cap - p) * 2⌉ := Int.ceil_nonneg h1
  have h3 : (cap - (p + 1/2)) * 2 = (cap - p) * 2 - 1 := by ring
  have h4 : ⌈(cap - (p + 1/2)) * 2⌉ = ⌈(cap - p) * 2⌉ - 1 := by
    rw [h3]
    exact_mod_cast Int.ceil_sub_one ((cap - p) * 2)
  omega

/-- The existing-stop detection of check_and_create_stop_loss: only orders
whose type is exactly the string STOP_MARKET count. -/
def has_stop_loss (orders : List OpenOrder) : Bool :=
  orders.any (fun o => o.type == "STOP_MARKET")

/-- What a call of check_and_create_stop_loss did.  The whole body sits in
a try with catch-all except clauses that only log, so a failing initial
fetch becomes fetchFailed rather than an exception. -/
inductive GuardResult where
  | fetchFailed (e : PyErr)
  | noPosition
  | alreadyHasStop
  | ran (out : SLOutcome)
deriving DecidableEq, Repr

/-- BinanceTrader.check_and_create_stop_loss: fetch the position (flat means
return), fetch open orders, return if one of type STOP_MARKET exists, else
run the escalating retry loop from start; never raises. -/
def check_and_create_stop_loss (posResp : Except PyErr PositionRow)
    (ordersResp : Except PyErr (List OpenOrder)) (resp : ℕ → SLResp)
    (start cap lev : ℚ) : GuardResult :=
  match posResp with
  | .error e => .fetchFailed e
  | .ok pos =>
    if pos.positionAmt = 0 then .noPosition
    else
      match ordersResp with
      | .error e => .fetchFailed e
      | .ok orders =>
        if has_stop_loss orders then .alreadyHasStop
        else .ran (slLoop resp pos.positionAmt pos.entryPrice lev cap 0 start)

/-- The existing-stop detection of update_dynamic_stop_loss step 4: the
first open order whose type is STOP_MARKET or STOP. -/
def isStopType (o : OpenOrder) : Bool :=
  o.type == "STOP_MARKET" || o.type == "STOP"

/-- current_sl_order of update_dynamic_stop_loss: first open order of type
STOP_MARKET or STOP. -/
def currentSlOrder (orders : List OpenOrder) : Option OpenOrder :=
  orders.find? isStopType

/-- The new stop price of update_dynamic_stop_loss step 6: for a LONG
position entry * (1 + target/100/leverage), for SHORT
entry * (1 - target/100/leverage). -/
def slPriceFor (amt entry : ℚ) (lev : ℤ) (target : ℚ) : ℚ :=
  if 0 < amt then entry * (1 + (target / 100) / (lev : ℚ))
  else entry * (1 - (target / 100) / (lev : ℚ))

/-- The stop order submitted by update_dynamic_stop_loss step 10: SELL for
LONG, BUY for SHORT, type STOP_MARKET, quantity abs(positionAmt), and
reduceOnly=True passed explicitly. -/
def stopReq (amt : ℚ) (newSl : ℚ) : OrderReq :=
  { side := if 0 < amt then "SELL" else "BUY"
    type := "STOP_MARKET"
    stopPrice := newSl
    qty := |amt|
    reduceOnly := true }

/-- What one call of update_dynamic_stop_loss decided.  The first five
constructors are the no-op exits (nothing cancelled, nothing placed);
replaced records the cancelled order id (if an existing stop was present)
and the newly submitted stop request; placeFailedFallback records that the
placement was rejected with a BinanceAPIException, after which the code
falls back to check_and_create_stop_loss. -/
inductive UpdateResult where
  | noPosition
  | notInProfit
  | noLevelReached
  | wouldLoosen
  | withinTolerance
  | replaced (cancelled : Option ℕ) (req : OrderReq)
  | placeFailedFallback (cancelled : Option ℕ) (g : GuardResult)
deriving DecidableEq, Repr

/-- The decision logic of update_dynamic_stop_loss on an already-fetched
snapshot (position amount, entry price, leverage, mark price, open orders)
for the success path of the effects: exit if flat or entry price is 0; exit
if the ROI profit is not positive; pick the trailing level; compute the new
stop price rounded by round_down_to_precision; against an existing stop
order reject a loosening update (LONG: lower, SHORT: higher), then a
redundant one (difference below the 0.0001 tolerance); otherwise cancel the
existing stop (if any) and place the new reduce-only STOP_MARKET order.
The bridging to the oracle-passing embedding is update_body_on_ok_gateway. -/
def update_core (amt entry : ℚ) (lev : ℤ) (mark : ℚ) (orders : List OpenOrder)
    (levels : List (ℚ × ℚ)) : UpdateResult :=
  if amt = 0 ∨ entry = 0 then .noPosition
  else if get_roi_calc amt entry lev mark ≤ 0 then .notInProfit
  else
    match pickLevel (get_roi_calc amt entry lev mark) (sortLevels levels) with
    | none => .noLevelReached
    | some lvl =>
      let newSl := round_down_to_precision (slPriceFor amt entry lev lvl.2)
      match currentSlOrder orders with
      | some o =>
        if 0 < amt ∧ newSl < o.stopPrice then .wouldLoosen
        else if ¬ 0 < amt ∧ o.stopPrice < newSl then .wouldLoosen
        else if |o.stopPrice - newSl| < 1/10000 then .withinTolerance
        else .replaced (some o.orderId) (stopReq amt newSl)
      | none => .replaced none (stopReq amt newSl)

/-- Model of the exchange honouring the effects of one update_dynamic_stop_loss
call that went through (cancel acknowledged, placement accepted): the
cancelled order disappears from the open orders, the new stop order appears
at the end with a fresh id.  For every no-op result the book is unchanged.
This is an environment model used to state multi-call properties, not code
of the repository. -/
def applyResult (orders : List OpenOrder) (freshId : ℕ) : UpdateResult → List OpenOrder
  | .replaced none req => orders ++ [⟨freshId, req.type, req.stopPrice⟩]
  | .replaced (some oid) req =>
    orders.filter (fun o => o.orderId != oid) ++ [⟨freshId, req.type, req.stopPrice⟩]
  | _ => orders

/-- Oracle for one call of update_dynamic_stop_loss: one field per exchange
call site (the repeated mark-price and position-information fetches see one
consistent snapshot), plus the inputs of the check_and_create_stop_loss
fallback. -/
structure UpdateGW where
  positionInfo : Except PyErr PositionRow
  leverageRows : Except PyErr (List PositionRow)
  markPrice : Except PyErr ℚ
  openOrders : Except PyErr (List OpenOrder)
  cancelResp : Except PyErr Unit
  placeResp : Except PyErr Unit
  guardPos : Except PyErr PositionRow
  guardOrders : Except PyErr (List OpenOrder)
  guardResp : ℕ → SLResp

/-- BinanceTrader.get_leverage: scan futures_position_information for the
symbol row and return its leverage; an exception (the method catches
internally) and a missing row both give none, never an exception. -/
def get_leverage (rowsResp : Except PyErr (List PositionRow)) (symbol : String) : Option ℤ :=
  match rowsResp with
  | .error _ => none
  | .ok rows => (rows.find? (fun r => r.symbol == symbol)).map (fun r => r.leverage)

/-- BinanceTrader.get_roi: look up the leverage (never raises, may be
none), return 0 for a flat position or zero entry price, else fetch the
mark price and compute the leveraged percent return; a none leverage makes
the multiplication raise TypeError. -/
def get_roi (gw : UpdateGW) (symbol : String) (pos : PositionRow) : Except PyErr ℚ :=
  let lev := get_leverage gw.leverageRows symbol
  if pos.positionAmt = 0 ∨ pos.entryPrice = 0 then .ok 0
  else
    match gw.markPrice with
    | .error e => .error e
    | .ok mark =>
      match lev with
      | none => .error .typeErr
      | some l =>
        if 0 < pos.positionAmt then .ok ((l : ℚ) * (mark - pos.entryPrice) / pos.entryPrice * 100)
        else .ok ((l : ℚ) * (pos.entryPrice - mark) / pos.entryPrice * 100)

/-- Step 10 of update_dynamic_stop_loss: submit the new stop order.  A
BinanceAPIException triggers the inline fallback to
check_and_create_stop_loss (both branches of that except clause call it,
with its default arguments 0.01 / 15 / 20); any other exception propagates
to the outer catch-all. -/
def placeStep (gw : UpdateGW) (amt newSl : ℚ) (cancelled : Option ℕ) :
    Except PyErr UpdateResult :=
  match gw.placeResp with
  | .ok _ => .ok (.replaced cancelled (stopReq amt newSl))
  | .error e =>
    if e.isApi then
      .ok (.placeFailedFallback cancelled
        (check_and_create_stop_loss gw.guardPos gw.guardOrders gw.guardResp (1/100) 15 20))
    else .error e

/-- The try-block of update_dynamic_stop_loss against gateway oracle gw;
the .error results are exactly the exceptions reaching the outer catch-all
except clause.  Control flow mirrors the source: fetch position, compute
ROI via get_roi, exit when flat or entry 0, fetch the mark price again,
exit when not in profit, fetch open orders (current_sl_order is the first
of type STOP_MARKET or STOP), sort the ladder and pick the level (with an
empty ladder the no-level log line raises IndexError), compute the rounded
new stop price with a fresh leverage lookup (none gives TypeError, 0 gives
ZeroDivisionError), run the loosening and tolerance guards, cancel the
existing stop (only a BinanceAPIException is caught and merely logged
there), place the new stop. -/
def update_body (gw : UpdateGW) (symbol : String) (levels : List (ℚ × ℚ)) :
    Except PyErr UpdateResult :=
  match gw.positionInfo with
  | .error e => .error e
  | .ok pos =>
    match get_roi gw symbol pos with
    | .error e => .error e
    | .ok roiv =>
      if pos.positionAmt = 0 ∨ pos.entryPrice = 0 then .ok .noPosition
      else
        match gw.markPrice with
        | .error e => .error e
        | .ok _mark =>
          if roiv ≤ 0 then .ok .notInProfit
          else
            match gw.openOrders with
            | .error e => .error e
            | .ok orders =>
              match pickLevel roiv (sortLevels levels) with
              | none =>
                if sortLevels levels = [] then .error (.other "IndexError")
                else .ok .noLevelReached
              | some lvl =>
                match get_leverage gw.leverageRows symbol with
                | none => .error .typeErr
                | some lv =>
                  if lv = 0 then .error .zeroDiv
                  else
                    let newSl :=
                      round_down_to_precision (slPriceFor pos.positionAmt pos.entryPrice lv lvl.2)
                    match currentSlOrder orders with
                    | some o =>
                      if 0 < pos.positionAmt ∧ newSl < o.stopPrice then .ok .wouldLoosen
                      else if ¬ 0 < pos.positionAmt ∧ o.stopPrice < newSl then .ok .wouldLoosen
                      else if |o.stopPrice - newSl| < 1/10000 then .ok .withinTolerance
                      else
                        match gw.cancelResp with
                        | .ok _ => placeStep gw pos.positionAmt newSl (some o.orderId)
                        | .error e =>
                          if e.isApi then placeStep gw pos.positionAmt newSl (some o.orderId)
                          else .error e
                    | none => placeStep gw pos.positionAmt newSl none

/-- What a full call of update_dynamic_stop_loss did: either the try-block
completed with a decision, or its exception was swallowed by the outer
catch-all except clause, which also runs the check_and_create_stop_loss
fallback. -/
inductive UpdateOutcome where
  | normal (r : UpdateResult)
  | swallowed (e : PyErr) (fallback : GuardResult)
deriving DecidableEq, Repr

/-- BinanceTrader.update_dynamic_stop_loss: the try-block wrapped in the
catch-all except clause; a caught exception is logged and the
check_and_create_stop_loss fallback runs.  The Except return type records
what propagates to the caller. -/
def update_dynamic_stop_loss (gw : UpdateGW) (symbol : String)
    (levels : List (ℚ × ℚ)) : Except PyErr UpdateOutcome :=
  match update_body gw symbol levels with
  | .ok r => .ok (.normal r)
  | .error e =>
    .ok (.swallowed e
      (check_and_create_stop_loss gw.guardPos gw.guardOrders gw.guardResp (1/100) 15 20))

/-- A gateway whose every call succeeds and answers from one snapshot: the
position row holds amt, entry and lev for the given symbol, the leverage
lookups see the same row, cancels and placements are accepted. -/
def okUpdateGW (symbol : String) (amt entry : ℚ) (lev : ℤ) (mark : ℚ)
    (orders : List OpenOrder) : UpdateGW :=
  { positionInfo := .ok ⟨symbol, amt, entry, lev⟩
    leverageRows := .ok [⟨symbol, amt, entry, lev⟩]
    markPrice := .ok mark
    openOrders := .ok orders
    cancelResp := .ok ()
    placeResp := .ok ()
    guardPos := .ok ⟨symbol, amt, entry, lev⟩
    guardOrders := .ok orders
    guardResp := fun _ => .success }

/-- Outcome of BinanceTrader.cancel_all_open_orders: success logged, or the
exception caught and logged; never raises. -/
inductive CancelOutcome where
  | done
  | logged (e : PyErr)
deriving DecidableEq, Repr

/-- BinanceTrader.cancel_all_open_orders: delegate to
futures_cancel_all_open_orders and catch everything. -/
def cancel_all_open_orders (resp : Except PyErr Unit) : CancelOutcome :=
  match resp with
  | .ok _ => .done
  | .error e => .logged e

/-- The close-order loop of close_all_positions: walk all position rows,
market-close each nonzero row matching the symbol (SELL for long, BUY for
short, quantity abs(positionAmt); market orders carry no stop price, the
stopPrice field of the request is 0 for the omitted parameter).  An
exception from any close order aborts the walk, to be caught by the
enclosing except clause. -/
def closeLoop (closeResp : ℕ → Except PyErr Unit) (symbol : String) :
    List PositionRow → ℕ → Except PyErr (List OrderReq)
  | [], _ => .ok []
  | r :: rs, k =>
    if r.symbol == symbol then
      if 0 < r.positionAmt then
        match closeResp k with
        | .error e => .error e
        | .ok _ =>
          match closeLoop closeResp symbol rs (k + 1) with
          | .error e => .error e
          | .ok acts => .ok (⟨"SELL", "MARKET", 0, |r.positionAmt|, false⟩ :: acts)
      else if r.positionAmt < 0 then
        match closeResp k with
        | .error e => .error e
        | .ok _ =>
          match closeLoop closeResp symbol rs (k + 1) with
          | .error e => .error e
          | .ok acts => .ok (⟨"BUY", "MARKET", 0, |r.positionAmt|, false⟩ :: acts)
      else closeLoop closeResp symbol rs k
    else closeLoop closeResp symbol rs k

/-- Outcome of BinanceTrader.close_all_positions: the market-close orders
issued, or the caught-and-logged exception; never raises. -/
inductive CloseOutcome where
  | done (closes : List OrderReq)
  | logged (e : PyErr)
deriving DecidableEq, Repr

/-- BinanceTrader.close_all_positions: fetch all position rows and
market-close those matching the symbol; both except clauses only log. -/
def close_all_positions (posResp : Except PyErr (List PositionRow))
    (closeResp : ℕ → Except PyErr Unit) (symbol : String) : CloseOutcome :=
  match posResp with
  | .error e => .logged e
  | .ok rows =>
    match closeLoop closeResp symbol rows 0 with
    | .error e => .logged e
    | .ok acts => .done acts

/-- Oracle for one call of create_order: one field per exchange call site
(the two ticker fetches see one snapshot; placeResp indexes the limit,
take-profit and stop-loss submissions in order). -/
structure CreateGW where
  cancelAllResp : Except PyErr Unit
  positionRows : Except PyErr (List PositionRow)
  closeResp : ℕ → Except PyErr Unit
  accountBalance : Except PyErr ℚ
  setLeverageResp : Except PyErr Unit
  tickerPrice : Except PyErr ℚ
  placeResp : ℕ → Except PyErr Unit

/-- The values create_order computed on its success path. -/
structure CreateResult where
  quantity : ℚ
  price : ℚ
  tpPrice : ℚ
  slPrice : ℚ
deriving DecidableEq, Repr

/-- The try-block of create_order: validate the position type (ValueError
otherwise), available balance scaled by 0.95, set leverage,
calculate_quantity (ticker fetch, division by the price - ZeroDivisionError
when it is 0 - and round(x, 6)) then round_to_precision, ticker price
rounded the same way, calculate_tp_sl_prices, then the three submissions:
limit entry, reduce-only take-profit, reduce-only stop-loss. -/
def create_order_body (gw : CreateGW) (position_type : String)
    (tp_percent sl_percent : ℚ) (leverage : ℤ) : Except PyErr CreateResult :=
  if position_type ≠ "LONG" ∧ position_type ≠ "SHORT" then .error (.valueErr position_type)
  else
    match gw.accountBalance with
    | .error e => .error e
    | .ok bal =>
      let usdt_balance := bal * (95/100)
      match gw.setLeverageResp with
      | .error e => .error e
      | .ok _ =>
        match gw.tickerPrice with
        | .error e => .error e
        | .ok p0 =>
          if p0 = 0 then .error .zeroDiv
          else
            let quantity := round_to_precision (pyRound6 (usdt_balance * (leverage : ℚ) / p0))
            match gw.tickerPrice with
            | .error e => .error e
            | .ok p1 =>
              let price := round_to_precision p1
              match calculate_tp_sl_prices price tp_percent sl_percent position_type leverage with
              | .error e => .error e
              | .ok prices =>
                match gw.placeResp 0 with
                | .error e => .error e
                | .ok _ =>
                  match gw.placeResp 1 with
                  | .error e => .error e
                  | .ok _ =>
                    match gw.placeResp 2 with
                    | .error e => .error e
                    | .ok _ => .ok ⟨quantity, price, prices.1, prices.2⟩

/-- What a full call of create_order did: the best-effort cancel and close
phases (each swallowing its own errors), then either the completed
try-block or its exception swallowed by the catch-all except clause. -/
inductive CreateOutcome where
  | completed (cancelled : CancelOutcome) (closed : CloseOutcome) (r : CreateResult)
  | swallowed (cancelled : CancelOutcome) (closed : CloseOutcome) (e : PyErr)
deriving DecidableEq, Repr

/-- BinanceTrader.create_order: cancel all open orders (never raises),
close all positions (never raises), sleep, then the try-block whose every
exception is caught and logged.  The Except return type records what
propagates to the caller. -/
def create_order (gw : CreateGW) (symbol position_type : String)
    (tp_percent sl_percent : ℚ) (leverage : ℤ) : Except PyErr CreateOutcome :=
  let c := cancel_all_open_orders gw.cancelAllResp
  let cl := close_all_positions gw.positionRows gw.closeResp symbol
  match create_order_body gw position_type tp_percent sl_percent leverage with
  | .ok r => .ok (.completed c cl r)
  | .error e => .ok (.swallowed c cl e)

/-- The three-level ladder of the ratchet scenario: (3, 1.5), (5, 3), (7, 5). -/
def c1Ladder : List (ℚ × ℚ) := [(3, 3/2), (5, 3), (7, 5)]

/-- One environment step of the ratchet scenario: a LONG position of amount
1 at entry 100 with leverage 1; the mark price drives the ROI; the engine's
decision is applied to the order book with the given fresh order id. -/
def c1Step (orders : List OpenOrder) (mark : ℚ) (freshId : ℕ) : List OpenOrder :=
  applyResult orders freshId (update_core 1 100 1 mark orders c1Ladder)

theorem ratFloor_eq (q : ℚ) : ratFloor q = ⌊q⌋ := by
  rw [Rat.floor_def, ratFloor]

theorem floor_le_roundHalfEven (q : ℚ) : ⌊q⌋ ≤ roundHalfEven q := by
  unfold roundHalfEven
  rw [ratFloor_eq]
  split_ifs <;> omega

theorem roundHalfEven_le_ceil (q : ℚ) : roundHalfEven q ≤ ⌈q⌉ := by
  have hfc : ⌊q⌋ ≤ ⌈q⌉ := Int.floor_le_ceil q
  have hkey : 1/2 ≤ q - (⌊q⌋ : ℚ) → ⌊q⌋ + 1 ≤ ⌈q⌉ := by
    intro h
    have h0 : (⌊q⌋ : ℚ) < q := by linarith
    have := Int.lt_ceil.mpr h0
    omega
  unfold roundHalfEven
  rw [ratFloor_eq]
  split_ifs with h1 h2 h3
  · exact hfc
  · exact hkey (by linarith)
  · exact hfc
  · exact hkey (by linarith)

theorem le_pyRound2 (m : ℤ) (x : ℚ) (h : (m : ℚ) ≤ x * 100) :
    (m : ℚ) / 100 ≤ pyRound2 x := by
  have h1 : m ≤ ⌊x * 100⌋ := Int.le_floor.mpr h
  have h2 : m ≤ roundHalfEven (x * 100) := le_trans h1 (floor_le_roundHalfEven _)
  have h3 : (m : ℚ) ≤ ((roundHalfEven (x * 100) : ℤ) : ℚ) := by exact_mod_cast h2
  unfold pyRound2
  have h100 : (0:ℚ) < 100 := by norm_num
  exact (div_le_div_iff_of_pos_right h100).mpr h3

theorem pyRound2_le (m : ℤ) (x : ℚ) (h : x * 100 ≤ (m : ℚ)) :
    pyRound2 x ≤ (m : ℚ) / 100 := by
  have h1 : ⌈x * 100⌉ ≤ m := Int.ceil_le.mpr h
  have h2 : roundHalfEven (x * 100) ≤ m := le_trans (roundHalfEven_le_ceil _) h1
  have h3 : ((roundHalfEven (x * 100) : ℤ) : ℚ) ≤ (m : ℚ) := by exact_mod_cast h2
  unfold pyRound2
  have h100 : (0:ℚ) < 100 := by norm_num
  exact (div_le_div_iff_of_pos_right h100).mpr h3

theorem insertLevel_perm (x : ℚ × ℚ) (l : List (ℚ × ℚ)) :
    (insertLevel x l).Perm (x :: l) := by
  induction l with
  | nil => exact List.Perm.refl _
  | cons y ys ih =>
    unfold insertLevel
    split_ifs with h
    · exact (List.Perm.cons y ih).trans (List.Perm.swap x y ys)
    · exact List.Perm.refl _

theorem sortLevels_perm (l : List (ℚ × ℚ)) : (sortLevels l).Perm l := by
  induction l with
  | nil => exact List.Perm.refl _
  | cons x xs ih =>
    exact (insertLevel_perm x (sortLevels xs)).trans (List.Perm.cons x ih)

theorem insertLevel_sorted (x : ℚ × ℚ) (l : List (ℚ × ℚ))
    (h : l.Sorted (fun a b => a.1 ≤ b.1)) :
    (insertLevel x l).Sorted (fun a b => a.1 ≤ b.1) := by
  induction l with
  | nil => simp [insertLevel]
  | cons y ys ih =>
    have h' := List.sorted_cons.mp h
    unfold insertLevel
    split_ifs with hle
    · rw [List.sorted_cons]
      refine ⟨?_, ih h'.2⟩
      intro b hb
      rcases List.mem_cons.mp ((insertLevel_perm x ys).mem_iff.mp hb) with rfl | hb'
      · exact hle
      · exact h'.1 b hb'
    · rw [List.sorted_cons]
      refine ⟨?_, h⟩
      intro b hb
      rcases List.mem_cons.mp hb with rfl | hb'
      · exact le_of_lt (lt_of_not_le hle)
      · exact le_trans (le_of_lt (lt_of_not_le hle)) (h'.1 b hb')

theorem sortLevels_sorted (l : List (ℚ × ℚ)) :
    (sortLevels l).Sorted (fun a b => a.1 ≤ b.1) := by
  induction l with
  | nil => simp [sortLevels]
  | cons x xs ih => exact insertLevel_sorted x (sortLevels xs) ih

theorem sortLevels_eq_nil (l : List (ℚ × ℚ)) (h : sortLevels l = []) : l = [] := by
  have := (sortLevels_perm l).length_eq
  rw [h] at this
  exact List.eq_nil_of_length_eq_zero this.symm

theorem pickLevel_mem_le (profit : ℚ) :
    ∀ (l : List (ℚ × ℚ)) (x : ℚ × ℚ), pickLevel profit l = some x →
      x ∈ l ∧ x.1 ≤ profit := by
  intro l
  induction l with
  | nil => intro x hx; simp [pickLevel] at hx
  | cons y ys ih =>
    intro x hx
    unfold pickLevel at hx
    split_ifs at hx with h
    · cases hys : pickLevel profit ys with
      | none =>
        rw [hys] at hx
        simp only [Option.getD_none, Option.some.injEq] at hx
        subst hx
        exact ⟨List.mem_cons_self _ _, h⟩
      | some z =>
        rw [hys] at hx
        simp only [Option.getD_some, Option.some.injEq] at hx
        subst hx
        have hz := ih z hys
        exact ⟨List.mem_cons_of_mem _ hz.1, hz.2⟩

theorem pickLevel_none (profit : ℚ) (l : List (ℚ × ℚ))
    (hs : l.Sorted (fun a b => a.1 ≤ b.1)) (h : pickLevel profit l = none) :
    ∀ y ∈ l, profit < y.1 := by
  cases l with
  | nil => simp
  | cons a as =>
    intro y hy
    have ha : ¬ a.1 ≤ profit := by
      intro hle
      unfold pickLevel at h
      rw [if_pos hle] at h
      simp at h
    rcases List.mem_cons.mp hy with rfl | hy'
    · exact lt_of_not_le ha
    · have := (List.sorted_cons.mp hs).1 y hy'
      linarith [lt_of_not_le ha]

theorem pickLevel_max (profit : ℚ) :
    ∀ (l : List (ℚ × ℚ)), l.Sorted (fun a b => a.1 ≤ b.1) →
      ∀ x, pickLevel profit l = some x → ∀ y ∈ l, y.1 ≤ profit → y.1 ≤ x.1 := by
  intro l
  induction l with
  | nil => intro _ x hx; simp [pickLevel] at hx
  | cons a as ih =>
    intro hs x hx y hy hyp
    have hs' := List.sorted_cons.mp hs
    unfold pickLevel at hx
    split_ifs at hx with ha
    · cases hys : pickLevel profit as with
      | none =>
        rw [hys] at hx
        simp only [Option.getD_none, Option.some.injEq] at hx
        subst hx
        rcases List.mem_cons.mp hy with rfl | hy'
        · exact le_refl _
        · exact absurd hyp (not_le.mpr (pickLevel_none profit as hs'.2 hys y hy'))
      | some z =>
        rw [hys] at hx
        simp only [Option.getD_some, Option.some.injEq] at hx
        subst hx
        rcases List.mem_cons.mp hy with rfl | hy'
        · exact hs'.1 z (pickLevel_mem_le profit as z hys).1
        · exact ih hs'.2 z hys y hy' hyp

theorem get_roi_on_ok_gateway (symbol : String) (amt entry : ℚ) (lev : ℤ) (mark : ℚ)
    (orders : List OpenOrder) :
    get_roi (okUpdateGW symbol amt entry lev mark orders) symbol ⟨symbol, amt, entry, lev⟩
      = .ok (get_roi_calc amt entry lev mark) := by
  unfold get_roi get_roi_calc okUpdateGW get_leverage
  simp only [List.find?]
  simp only [beq_self_eq_true]
  split_ifs <;> rfl

theorem update_body_on_ok_gateway (symbol : String) (amt entry : ℚ) (lev : ℤ)
    (mark : ℚ) (orders : List OpenOrder) (levels : List (ℚ × ℚ))
    (hlev : lev ≠ 0) (hlv : levels ≠ []) :
    update_body (okUpdateGW symbol amt entry lev mark orders) symbol levels
      = .ok (update_core amt entry lev mark orders levels) := by
  have hfind : get_leverage (Except.ok [(⟨symbol, amt, entry, lev⟩ : PositionRow)]) symbol
      = some lev := by
    simp [get_leverage, List.find?]
  have hroi := get_roi_on_ok_gateway symbol amt entry lev mark orders
  unfold update_body update_core
  simp only [okUpdateGW] at hroi ⊢
  simp only [hroi]
  by_cases h0 : amt = 0 ∨ entry = 0
  · rw [if_pos h0, if_pos h0]
  · rw [if_neg h0, if_neg h0]
    by_cases h1 : get_roi_calc amt entry lev mark ≤ 0
    · rw [if_pos h1, if_pos h1]
    · rw [if_neg h1, if_neg h1]
      cases hp : pickLevel (get_roi_calc amt entry lev mark) (sortLevels levels) with
      | none =>
        simp only [hp]
        rw [if_neg (show ¬ sortLevels levels = [] from fun h => hlv (sortLevels_eq_nil levels h))]
      | some lvl =>
        simp only [hp, hfind]
        rw [if_neg hlev]
        cases hc : currentSlOrder orders with
        | none => simp [placeStep]
        | some o =>
          dsimp only
          split_ifs with g1 g2 g3 <;> simp [placeStep]

theorem length_le_one_unique {α : Type} (l : List α) (h : l.length ≤ 1) :
    ∀ a ∈ l, ∀ b ∈ l, a = b := by
  cases l with
  | nil => simp
  | cons x t =>
    cases t with
    | nil =>
      intro a ha b hb
      rw [List.mem_singleton] at ha hb
      rw [ha, hb]
    | cons y t2 => simp at h

theorem update_core_replaced (amt entry : ℚ) (lev : ℤ) (mark : ℚ)
    (orders : List OpenOrder) (levels : List (ℚ × ℚ)) (c : Option ℕ) (req : OrderReq)
    (h : update_core amt entry lev mark orders levels = .replaced c req) :
    ∃ lvl, pickLevel (get_roi_calc amt entry lev mark) (sortLevels levels) = some lvl
      ∧ req = stopReq amt (round_down_to_precision (slPriceFor amt entry lev lvl.2))
      ∧ ¬ (amt = 0 ∨ entry = 0)
      ∧ ¬ get_roi_calc amt entry lev mark ≤ 0
      ∧ ((c = none ∧ currentSlOrder orders = none)
        ∨ (∃ o, currentSlOrder orders = some o ∧ c = some o.orderId
            ∧ ¬ (0 < amt ∧ req.stopPrice < o.stopPrice)
            ∧ ¬ (¬ 0 < amt ∧ o.stopPrice < req.stopPrice)
            ∧ ¬ (|o.stopPrice - req.stopPrice| < 1/10000))) := by
  unfold update_core at h
  split_ifs at h with h0 h1
  cases hp : pickLevel (get_roi_calc amt entry lev mark) (sortLevels levels) with
  | none => rw [hp] at h; simp at h
  | some lvl =>
    simp only [hp] at h
    refine ⟨lvl, rfl, ?_, h0, h1, ?_⟩
    · cases hc : currentSlOrder orders with
      | none => simp only [hc] at h; injection h with hc1 hc2; exact hc2.symm
      | some o =>
        simp only [hc] at h
        split_ifs at h with g1 g2 g3
        injection h with hc1 hc2
        exact hc2.symm
    · cases hc : currentSlOrder orders with
      | none =>
        simp only [hc] at h
        injection h with hc1 hc2
        exact Or.inl ⟨hc1.symm, rfl⟩
      | some o =>
        simp only [hc] at h
        split_ifs at h with g1 g2 g3
        injection h with hc1 hc2
        refine Or.inr ⟨o, rfl, hc1.symm, ?_, ?_, ?_⟩
        · rw [← hc2]; exact g1
        · rw [← hc2]; exact g2
        · rw [← hc2]; exact g3

/-- C3: Fire-and-log error policy of the two top-level entry points: for
every behaviour of the exchange gateway (any exception raised by any
gateway call, and validation failures such as a bad position type),
create_order and update_dynamic_stop_loss return normally: the result is
always .ok, never a propagated exception; errors are only recorded in the
logged outcome. -/
theorem C3_fire_and_log (cgw : CreateGW) (ugw : UpdateGW) (symbol position_type : String)
    (tp_percent sl_percent : ℚ) (leverage : ℤ) (levels : List (ℚ × ℚ)) :
    (create_order cgw symbol position_type tp_percent sl_percent leverage).isOk = true
    ∧ (update_dynamic_stop_loss ugw symbol levels).isOk = true := by
  constructor
  · unfold create_order
    cases create_order_body cgw position_type tp_percent sl_percent leverage <;> rfl
  · unfold update_dynamic_stop_loss
    cases update_body ugw symbol levels <;> rfl

/-- C4 counterexample: at entry price 1.005 (not a whole number of cents)
with both percents 0 and leverage 1 on LONG, the take-profit rounds to
1.00, strictly below the entry price, refuting takeProfit ≥ entryPrice as
universally claimed. -/
theorem C4_counterexample :
    calculate_tp_sl_prices (201/200) 0 0 "LONG" 1 = .ok (1, 1)
    ∧ ¬ ((201:ℚ)/200 ≤ 1) := by
  constructor
  · decide
  · decide

/-- C4 amended: for an entry price that is a whole number of cents
(m = 100 * entryPrice for an integer m), tpPercent ≥ 0, slPercent ≥ 0 and
integer leverage ≥ 1, calculate_tp_sl_prices returns exactly the leveraged
formulas rounded to 2 decimals and the bracket ordering holds: LONG gives
takeProfit ≥ entry ≥ stopLoss, SHORT inverts both inequalities. -/
theorem C4_bracket_ordering (entry tp sl : ℚ) (lev m : ℤ)
    (he : 0 ≤ entry) (ht : 0 ≤ tp) (hs : 0 ≤ sl) (hl : 1 ≤ lev)
    (hm : (m : ℚ) = 100 * entry) :
    (calculate_tp_sl_prices entry tp sl "LONG" lev
        = .ok (pyRound2 (entry * (1 + (tp/100)/(lev:ℚ))), pyRound2 (entry * (1 - (sl/100)/(lev:ℚ))))
      ∧ entry ≤ pyRound2 (entry * (1 + (tp/100)/(lev:ℚ)))
      ∧ pyRound2 (entry * (1 - (sl/100)/(lev:ℚ))) ≤ entry)
    ∧ (calculate_tp_sl_prices entry tp sl "SHORT" lev
        = .ok (pyRound2 (entry * (1 - (tp/100)/(lev:ℚ))), pyRound2 (entry * (1 + (sl/100)/(lev:ℚ))))
      ∧ pyRound2 (entry * (1 - (tp/100)/(lev:ℚ))) ≤ entry
      ∧ entry ≤ pyRound2 (entry * (1 + (sl/100)/(lev:ℚ)))) := by
  have hlev0 : lev ≠ 0 := by omega
  have hlq : (0:ℚ) < (lev : ℚ) := by exact_mod_cast (by omega : (0:ℤ) < lev)
  have htf : 0 ≤ (tp/100)/(lev:ℚ) := by positivity
  have hsf : 0 ≤ (sl/100)/(lev:ℚ) := by positivity
  have hup : ∀ d : ℚ, 0 ≤ d → entry ≤ pyRound2 (entry * (1 + d)) := by
    intro d hd
    have h2 : (m : ℚ) ≤ entry * (1 + d) * 100 := by nlinarith
    have h3 := le_pyRound2 m (entry * (1 + d)) h2
    have hentry : entry = (m : ℚ) / 100 := by rw [hm]; ring
    linarith [h3]
  have hdn : ∀ d : ℚ, 0 ≤ d → pyRound2 (entry * (1 - d)) ≤ entry := by
    intro d hd
    have h2 : entry * (1 - d) * 100 ≤ (m : ℚ) := by nlinarith
    have h3 := pyRound2_le m (entry * (1 - d)) h2
    have hentry : entry = (m : ℚ) / 100 := by rw [hm]; ring
    linarith [h3]
  constructor
  · refine ⟨?_, hup _ htf, hdn _ hsf⟩
    unfold calculate_tp_sl_prices
    rw [if_neg hlev0, if_pos rfl, if_pos rfl]
  · refine ⟨?_, hdn _ htf, hup _ hsf⟩
    unfold calculate_tp_sl_prices
    rw [if_neg hlev0, if_neg (by decide), if_neg (by decide)]

theorem C4_bracket_ordering_witness :
    (calculate_tp_sl_prices 100 10 5 "LONG" 8
        = .ok (pyRound2 (100 * (1 + ((10:ℚ)/100)/(8:ℚ))), pyRound2 (100 * (1 - ((5:ℚ)/100)/(8:ℚ))))
      ∧ (100:ℚ) ≤ pyRound2 (100 * (1 + ((10:ℚ)/100)/(8:ℚ)))
      ∧ pyRound2 (100 * (1 - ((5:ℚ)/100)/(8:ℚ))) ≤ 100)
    ∧ (calculate_tp_sl_prices 100 10 5 "SHORT" 8
        = .ok (pyRound2 (100 * (1 - ((10:ℚ)/100)/(8:ℚ))), pyRound2 (100 * (1 + ((5:ℚ)/100)/(8:ℚ))))
      ∧ pyRound2 (100 * (1 - ((10:ℚ)/100)/(8:ℚ))) ≤ 100
      ∧ (100:ℚ) ≤ pyRound2 (100 * (1 + ((5:ℚ)/100)/(8:ℚ)))) :=
  C4_bracket_ordering 100 10 5 8 10000 (by norm_num) (by norm_num) (by norm_num)
    (by norm_num) (by norm_num)

/-- C5 counterexample: leverage -1 is ≤ 0, yet calculate_tp_sl_prices
returns a price pair (90, 105) normally instead of failing; there is no
non-positive-leverage validation in the code. -/
theorem C5_counterexample :
    calculate_tp_sl_prices 100 10 5 "LONG" (-1) = .ok (90, 105) ∧ ((-1:ℤ) ≤ 0) := by
  constructor
  · decide
  · decide

/-- C5 amended: only leverage = 0 makes calculate_tp_sl_prices fail, and
with an uncaught ZeroDivisionError rather than an InvalidArgument
validation; every nonzero leverage (negative included) returns a price
pair. -/
theorem C5_leverage_behavior :
    (∀ (e t s : ℚ) (pt : String), calculate_tp_sl_prices e t s pt 0 = .error .zeroDiv)
    ∧ (∀ (e t s : ℚ) (pt : String) (L : ℤ), L ≠ 0 →
        ∃ pr, calculate_tp_sl_prices e t s pt L = .ok pr) := by
  constructor
  · intro e t s pt
    unfold calculate_tp_sl_prices
    rw [if_pos rfl]
  · intro e t s pt L hL
    unfold calculate_tp_sl_prices
    rw [if_neg hL]
    exact ⟨_, rfl⟩

theorem C5_leverage_behavior_witness :
    calculate_tp_sl_prices 100 10 5 "LONG" 0 = .error .zeroDiv
    ∧ ∃ pr, calculate_tp_sl_prices 100 10 5 "LONG" (-1) = .ok pr :=
  ⟨C5_leverage_behavior.1 100 10 5 "LONG",
   C5_leverage_behavior.2 100 10 5 "LONG" (-1) (by decide)⟩

/-- C8 (code bug): the stop-price rounding shared by
check_and_create_stop_loss and update_dynamic_stop_loss is not downward:
at p = 1.006 round_down_to_precision returns 1.01, which is strictly above
p, while floor(p * 100) / 100 = 1.00 as the claim (and the method's own
name; its sibling round_to_precision does use math.floor) requires. -/
theorem C8_round_not_down :
    round_down_to_precision (1006/1000) = 101/100
    ∧ ¬ (round_down_to_precision (1006/1000) ≤ 1006/1000)
    ∧ ((ratFloor ((1006:ℚ)/1000 * 100) : ℚ) / 100 = 1) := by
  refine ⟨by decide, by decide, by decide⟩

/-- C9: Reduce-only asymmetry between the two stop-placing components:
every stop order that update_dynamic_stop_loss decides to place carries
reduceOnly = true, while the stop order assembled by
check_and_create_stop_loss always carries reduceOnly = false (the Python
call omits the parameter, so the API default applies and the guard's
safety-net stop may open or flip a position). -/
theorem C9_reduce_only_asymmetry :
    (∀ (amt entry : ℚ) (lev : ℤ) (mark : ℚ) (orders : List OpenOrder)
        (levels : List (ℚ × ℚ)) (c : Option ℕ) (req : OrderReq),
        update_core amt entry lev mark orders levels = .replaced c req →
        req.reduceOnly = true)
    ∧ (∀ amt entry lev p : ℚ, (guardStopReq amt entry lev p).reduceOnly = false) := by
  constructor
  · intro amt entry lev mark orders levels c req h
    obtain ⟨lvl, _, hreq, _⟩ := update_core_replaced amt entry lev mark orders levels c req h
    rw [hreq]
    rfl
  · intro amt entry lev p
    unfold guardStopReq
    split_ifs <;> rfl

theorem C9_reduce_only_asymmetry_witness :
    (stopReq 1 (round_down_to_precision (slPriceFor 1 100 1 (3/2)))).reduceOnly = true
    ∧ (guardStopReq 1 100 20 (1/100)).reduceOnly = false :=
  ⟨C9_reduce_only_asymmetry.1 1 100 1 104 [] [(3, 3/2)] none
      (stopReq 1 (round_down_to_precision (slPriceFor 1 100 1 (3/2)))) (by decide),
   C9_reduce_only_asymmetry.2 1 100 20 (1/100)⟩

/-- C6: Trailing-level selection: on the sorted ladder the engine selects
exactly a level whose trigger is the greatest trigger ≤ profitPct (parts 1
and 2, stated for the selection used by update_dynamic_stop_loss), and when
the profit is not positive or below the lowest trigger the call is a no-op
(.notInProfit / .noLevelReached: nothing cancelled, nothing placed). -/
theorem C6_level_selection :
    (∀ (profit : ℚ) (levels : List (ℚ × ℚ)) (lvl : ℚ × ℚ),
        pickLevel profit (sortLevels levels) = some lvl →
        lvl ∈ levels ∧ lvl.1 ≤ profit ∧ ∀ y ∈ levels, y.1 ≤ profit → y.1 ≤ lvl.1)
    ∧ (∀ (profit : ℚ) (levels : List (ℚ × ℚ)),
        pickLevel profit (sortLevels levels) = none → ∀ y ∈ levels, profit < y.1)
    ∧ (∀ (amt entry : ℚ) (lev : ℤ) (mark : ℚ) (orders : List OpenOrder)
        (levels : List (ℚ × ℚ)),
        ¬ (amt = 0 ∨ entry = 0) → get_roi_calc amt entry lev mark ≤ 0 →
        update_core amt entry lev mark orders levels = .notInProfit)
    ∧ (∀ (amt entry : ℚ) (lev : ℤ) (mark : ℚ) (orders : List OpenOrder)
        (levels : List (ℚ × ℚ)),
        ¬ (amt = 0 ∨ entry = 0) → ¬ get_roi_calc amt entry lev mark ≤ 0 →
        pickLevel (get_roi_calc amt entry lev mark) (sortLevels levels) = none →
        update_core amt entry lev mark orders levels = .noLevelReached) := by
  refine ⟨?_, ?_, ?_, ?_⟩
  · intro profit levels lvl h
    have hmem := pickLevel_mem_le profit (sortLevels levels) lvl h
    refine ⟨(sortLevels_perm levels).mem_iff.mp hmem.1, hmem.2, ?_⟩
    intro y hy hyp
    exact pickLevel_max profit (sortLevels levels) (sortLevels_sorted levels) lvl h y
      ((sortLevels_perm levels).mem_iff.mpr hy) hyp
  · intro profit levels h y hy
    exact pickLevel_none profit (sortLevels levels) (sortLevels_sorted levels) h y
      ((sortLevels_perm levels).mem_iff.mpr hy)
  · intro amt entry lev mark orders levels h0 h1
    unfold update_core
    rw [if_neg h0, if_pos h1]
  · intro amt entry lev mark orders levels h0 h1 hp
    unfold update_core
    rw [if_neg h0, if_neg h1]
    simp only [hp]

theorem C6_level_selection_witness :
    (((3:ℚ), (3/2:ℚ)) ∈ c1Ladder ∧ (3:ℚ) ≤ 4
      ∧ ∀ y ∈ c1Ladder, y.1 ≤ 4 → y.1 ≤ ((3:ℚ), (3/2:ℚ)).1)
    ∧ (∀ y ∈ c1Ladder, (1:ℚ)/2 < y.1)
    ∧ update_core 1 100 1 100 [] c1Ladder = .notInProfit
    ∧ update_core 1 100 1 (201/2) [] c1Ladder = .noLevelReached :=
  ⟨C6_level_selection.1 4 c1Ladder (3, 3/2) (by decide),
   C6_level_selection.2.1 (1/2) c1Ladder (by decide),
   C6_level_selection.2.2.1 1 100 1 100 [] c1Ladder (by decide) (by decide),
   C6_level_selection.2.2.2 1 100 1 (201/2) [] c1Ladder (by decide) (by decide) (by decide)⟩

/-- C1: Anti-loosening invariant of the trailing stop.  Parts 1 and 2:
with an existing stop order, a LONG update whose new stop price is strictly
below the current stop price is rejected (no cancel, no placement), and
symmetrically a SHORT update whose new stop price is strictly above it.
Part 3: consequently every stop the engine does place against an existing
one has a price at least the current one for LONG.  Part 4: the ratchet
scenario of the spec: profits 4 percent, 3 percent, 6 percent against the
ladder [(3,1.5),(5,3),(7,5)] with entry 100 and leverage 1 leave the stop
at 101.50, 101.50 (middle call a tolerance no-op), 103.00 = the stop of the
highest profit level reached. -/
theorem C1_anti_loosening :
    (∀ (amt entry : ℚ) (lev : ℤ) (mark : ℚ) (orders : List OpenOrder)
        (levels : List (ℚ × ℚ)) (cur : OpenOrder) (lvl : ℚ × ℚ),
        0 < amt → ¬ (amt = 0 ∨ entry = 0) → ¬ get_roi_calc amt entry lev mark ≤ 0 →
        currentSlOrder orders = some cur →
        pickLevel (get_roi_calc amt entry lev mark) (sortLevels levels) = some lvl →
        round_down_to_precision (slPriceFor amt entry lev lvl.2) < cur.stopPrice →
        update_core amt entry lev mark orders levels = .wouldLoosen)
    ∧ (∀ (amt entry : ℚ) (lev : ℤ) (mark : ℚ) (orders : List OpenOrder)
        (levels : List (ℚ × ℚ)) (cur : OpenOrder) (lvl : ℚ × ℚ),
        amt < 0 → ¬ (amt = 0 ∨ entry = 0) → ¬ get_roi_calc amt entry lev mark ≤ 0 →
        currentSlOrder orders = some cur →
        pickLevel (get_roi_calc amt entry lev mark) (sortLevels levels) = some lvl →
        cur.stopPrice < round_down_to_precision (slPriceFor amt entry lev lvl.2) →
        update_core amt entry lev mark orders levels = .wouldLoosen)
    ∧ (∀ (amt entry : ℚ) (lev : ℤ) (mark : ℚ) (orders : List OpenOrder)
        (levels : List (ℚ × ℚ)) (cur : OpenOrder) (c : Option ℕ) (req : OrderReq),
        0 < amt → currentSlOrder orders = some cur →
        update_core amt entry lev mark orders levels = .replaced c req →
        cur.stopPrice ≤ req.stopPrice)
    ∧ ((currentSlOrder (c1Step [] 104 10)).map OpenOrder.stopPrice = some (203/2)
      ∧ update_core 1 100 1 103 (c1Step [] 104 10) c1Ladder = .withinTolerance
      ∧ (currentSlOrder (c1Step (c1Step [] 104 10) 103 11)).map OpenOrder.stopPrice
          = some (203/2)
      ∧ (currentSlOrder (c1Step (c1Step (c1Step [] 104 10) 103 11) 106 12)).map
          OpenOrder.stopPrice
          = some (round_down_to_precision (100 * (1 + ((3:ℚ)/100) / (1:ℚ))))) := by
  refine ⟨?_, ?_, ?_, ?_, ?_, ?_, ?_⟩
  · intro amt entry lev mark orders levels cur lvl hamt h0 h1 hcur hp hlt
    unfold update_core
    rw [if_neg h0, if_neg h1]
    simp only [hp, hcur]
    rw [if_pos ⟨hamt, hlt⟩]
  · intro amt entry lev mark orders levels cur lvl hamt h0 h1 hcur hp hgt
    have hnpos : ¬ 0 < amt := by linarith
    unfold update_core
    rw [if_neg h0, if_neg h1]
    simp only [hp, hcur]
    rw [if_neg (fun hc => hnpos hc.1), if_pos ⟨hnpos, hgt⟩]
  · intro amt entry lev mark orders levels cur c req hamt hcur h
    obtain ⟨lvl, hp, hreq, h0, h1, hbr⟩ :=
      update_core_replaced amt entry lev mark orders levels c req h
    rcases hbr with ⟨hc, hnone⟩ | ⟨o, ho, hc, g1, g2, g3⟩
    · rw [hcur] at hnone
      cases hnone
    · rw [hcur] at ho
      injection ho with ho'
      subst ho'
      by_contra hcon
      push_neg at hcon
      exact g1 ⟨hamt, hcon⟩
  · decide
  · decide
  · decide
  · decide

theorem C1_anti_loosening_witness :
    update_core 1 100 1 104 [⟨5, "STOP_MARKET", 103⟩] [(3, 3/2)] = .wouldLoosen :=
  C1_anti_loosening.1 1 100 1 104 [⟨5, "STOP_MARKET", 103⟩] [(3, 3/2)]
    ⟨5, "STOP_MARKET", 103⟩ (3, 3/2) (by decide) (by decide) (by decide) (by decide)
    (by decide) (by decide)

/-- C7: Idempotence of the trailing update: if a call decided to replace
(placing exactly one stop order) and the exchange honoured it, then a
second call on the unchanged position, leverage and profit computes the
same stop price, finds the just-placed order within the 0.0001 tolerance,
and is a no-op.  The book is assumed to hold at most one stop-type order,
as the engine expects. -/
theorem C7_idempotent_update (amt entry : ℚ) (lev : ℤ) (mark : ℚ)
    (orders : List OpenOrder) (levels : List (ℚ × ℚ)) (freshId : ℕ)
    (c : Option ℕ) (req : OrderReq)
    (hone : (orders.filter (fun o => isStopType o)).length ≤ 1)
    (h : update_core amt entry lev mark orders levels = .replaced c req) :
    update_core amt entry lev mark (applyResult orders freshId (.replaced c req)) levels
      = .withinTolerance := by
  obtain ⟨lvl, hp, hreq, h0, h1, hbr⟩ :=
    update_core_replaced amt entry lev mark orders levels c req h
  have hreqty : req.type = "STOP_MARKET" := by rw [hreq]; rfl
  have hreqsp : req.stopPrice = round_down_to_precision (slPriceFor amt entry lev lvl.2) := by
    rw [hreq]; rfl
  have hfind : currentSlOrder (applyResult orders freshId (.replaced c req))
      = some ⟨freshId, req.type, req.stopPrice⟩ := by
    rcases hbr with ⟨hc, hnone⟩ | ⟨o, ho, hc, g1, g2, g3⟩
    · subst hc
      unfold applyResult currentSlOrder
      rw [List.find?_append]
      unfold currentSlOrder at hnone
      rw [hnone]
      simp [List.find?, isStopType, hreqty]
    · subst hc
      unfold applyResult currentSlOrder
      rw [List.find?_append]
      have hnone2 : (orders.filter (fun o2 => o2.orderId != o.orderId)).find? isStopType
          = none := by
        rw [List.find?_eq_none]
        intro x hx hstop
        have hxmem := (List.mem_filter.mp hx).1
        have hxid := (List.mem_filter.mp hx).2
        have homem : o ∈ orders := List.mem_of_find?_eq_some ho
        have hostop : isStopType o = true := List.find?_some ho
        have hx2 : x ∈ orders.filter (fun o2 => isStopType o2) :=
          List.mem_filter.mpr ⟨hxmem, hstop⟩
        have ho2 : o ∈ orders.filter (fun o2 => isStopType o2) :=
          List.mem_filter.mpr ⟨homem, hostop⟩
        have hxo := length_le_one_unique _ hone x hx2 o ho2
        rw [hxo] at hxid
        simp at hxid
      rw [hnone2]
      simp [List.find?, isStopType, hreqty]
  unfold update_core
  rw [if_neg h0, if_neg h1]
  simp only [hp, hfind]
  rw [hreqsp]
  rw [if_neg (fun hcn => lt_irrefl _ hcn.2)]
  rw [if_neg (fun hcn => lt_irrefl _ hcn.2)]
  rw [if_pos (by rw [sub_self, abs_zero]; norm_num)]

theorem C7_idempotent_update_witness :
    update_core 1 100 1 104
      (applyResult [] 7 (.replaced none ⟨"SELL", "STOP_MARKET", 203/2, 1, true⟩)) [(3, 3/2)]
      = .withinTolerance :=
  C7_idempotent_update 1 100 1 104 [] [(3, 3/2)] 7 none
    ⟨"SELL", "STOP_MARKET", 203/2, 1, true⟩ (by decide) (by decide)

theorem slLoop_attempts_first (resp : ℕ → SLResp) (amt entry lev cap : ℚ) (k : ℕ) (p : ℚ)
    (a : SLAttempt) (h : (slLoop resp amt entry lev cap k p).attempts.head? = some a) :
    a.percent = p := by
  unfold slLoop at h
  split_ifs at h with h1 h2
  · simp at h
  · cases hr : resp k <;> simp only [hr] at h <;> (injection h with h'; rw [← h'])
  · simp at h

theorem slLoop_chain (resp : ℕ → SLResp) (amt entry lev cap : ℚ) (k : ℕ) (p : ℚ) :
    List.Chain' (fun a b => b.percent = a.percent + 1/2)
      (slLoop resp amt entry lev cap k p).attempts := by
  induction k, p using slLoop.induct resp amt entry lev cap with
  | case1 k p h1 h2 =>
    unfold slLoop
    rw [dif_pos h1, if_pos h2]
    exact List.chain'_nil
  | case2 k p h1 h2 h3 =>
    unfold slLoop
    rw [dif_pos h1, if_neg h2]
    simp only [h3]
    exact List.chain'_singleton _
  | case3 k p h1 h2 h3 ih =>
    unfold slLoop
    rw [dif_pos h1, if_neg h2]
    simp only [h3]
    refine List.chain'_cons'.mpr ⟨?_, ih⟩
    intro b hb
    rw [slLoop_attempts_first resp amt entry lev cap (k + 1) (p + 1/2) b hb]
  | case4 k p h1 h2 h3 =>
    unfold slLoop
    rw [dif_pos h1, if_neg h2]
    simp only [h3]
    exact List.chain'_singleton _
  | case5 k p h1 h2 h3 =>
    unfold slLoop
    rw [dif_pos h1, if_neg h2]
    simp only [h3]
    exact List.chain'_singleton _
  | case6 k p h1 =>
    unfold slLoop
    rw [dif_neg h1]
    exact List.chain'_nil

theorem slLoop_length (resp : ℕ → SLResp) (amt entry lev cap : ℚ) (k : ℕ) (p : ℚ) :
    (slLoop resp amt entry lev cap k p).attempts.length ≤ (⌈(cap - p) * 2⌉ + 1).toNat := by
  induction k, p using slLoop.induct resp amt entry lev cap with
  | case1 k p h1 h2 =>
    unfold slLoop
    rw [dif_pos h1, if_pos h2]
    simp
  | case2 k p h1 h2 h3 =>
    unfold slLoop
    rw [dif_pos h1, if_neg h2]
    simp only [h3]
    have hge : (0:ℤ) ≤ ⌈(cap - p) * 2⌉ := Int.ceil_nonneg (by nlinarith)
    simp only [List.length_singleton]
    omega
  | case3 k p h1 h2 h3 ih =>
    unfold slLoop
    rw [dif_pos h1, if_neg h2]
    simp only [h3]
    have hge : (0:ℤ) ≤ ⌈(cap - p) * 2⌉ := Int.ceil_nonneg (by nlinarith)
    have hstep : ⌈(cap - (p + 1/2)) * 2⌉ = ⌈(cap - p) * 2⌉ - 1 := by
      have h3' : (cap - (p + 1/2)) * 2 = (cap - p) * 2 - 1 := by ring
      rw [h3']
      exact_mod_cast Int.ceil_sub_one ((cap - p) * 2)
    rw [hstep] at ih
    simp only [List.length_cons]
    omega
  | case4 k p h1 h2 h3 =>
    unfold slLoop
    rw [dif_pos h1, if_neg h2]
    simp only [h3]
    have hge : (0:ℤ) ≤ ⌈(cap - p) * 2⌉ := Int.ceil_nonneg (by nlinarith)
    simp only [List.length_singleton]
    omega
  | case5 k p h1 h2 h3 =>
    unfold slLoop
    rw [dif_pos h1, if_neg h2]
    simp only [h3]
    have hge : (0:ℤ) ≤ ⌈(cap - p) * 2⌉ := Int.ceil_nonneg (by nlinarith)
    simp only [List.length_singleton]
    omega
  | case6 k p h1 =>
    unfold slLoop
    rw [dif_neg h1]
    simp

theorem slLoop_all_transient (resp : ℕ → SLResp) (amt entry lev cap : ℚ)
    (hresp : ∀ n, resp n = .transientReject) (hlev : lev ≠ 0) (k : ℕ) (p : ℚ) :
    (slLoop resp amt entry lev cap k p).placed = false
    ∧ cap < (slLoop resp amt entry lev cap k p).finalPercent := by
  induction k, p using slLoop.induct resp amt entry lev cap with
  | case1 k p h1 h2 => exact absurd h2 hlev
  | case2 k p h1 h2 h3 => rw [hresp k] at h3; exact SLResp.noConfusion h3
  | case3 k p h1 h2 h3 ih =>
    unfold slLoop
    rw [dif_pos h1, if_neg h2]
    simp only [h3]
    exact ih
  | case4 k p h1 h2 h3 => rw [hresp k] at h3; exact SLResp.noConfusion h3
  | case5 k p h1 h2 h3 => rw [hresp k] at h3; exact SLResp.noConfusion h3
  | case6 k p h1 =>
    unfold slLoop
    rw [dif_neg h1]
    exact ⟨rfl, lt_of_not_le h1⟩

/-- C2: Bounded retry of the stop-loss guard loop of
check_and_create_stop_loss: consecutive placement attempts increase the
percent by exactly 0.5 (hence it is monotonically non-decreasing); the loop
makes at most ceil((cap - start) / 0.5) + 1 placement attempts; and if
every attempt is rejected with the transient immediately-trigger error, the
loop terminates with the percent strictly above the cap having placed no
order. -/
theorem C2_bounded_retry (resp : ℕ → SLResp) (amt entry lev cap : ℚ) (k : ℕ) (start : ℚ) :
    List.Chain' (fun a b => b.percent = a.percent + 1/2)
      (slLoop resp amt entry lev cap k start).attempts
    ∧ (slLoop resp amt entry lev cap k start).attempts.length
        ≤ (⌈(cap - start) / (1/2 : ℚ)⌉ + 1).toNat
    ∧ ((∀ n, resp n = .transientReject) → lev ≠ 0 →
        (slLoop resp amt entry lev cap k start).placed = false
        ∧ cap < (slLoop resp amt entry lev cap k start).finalPercent) := by
  refine ⟨slLoop_chain resp amt entry lev cap k start, ?_, ?_⟩
  · have hdiv : (cap - start) / (1/2 : ℚ) = (cap - start) * 2 := by ring
    rw [hdiv]
    exact slLoop_length resp amt entry lev cap k start
  · intro hresp hlev
    exact slLoop_all_transient resp amt entry lev cap hresp hlev k start

theorem C2_bounded_retry_witness :
    List.Chain' (fun a b => b.percent = a.percent + 1/2)
      (slLoop (fun _ => .transientReject) 1 100 20 15 0 (1/100)).attempts
    ∧ (slLoop (fun _ => .transientReject) 1 100 20 15 0 (1/100)).attempts.length
        ≤ (⌈((15:ℚ) - 1/100) / (1/2 : ℚ)⌉ + 1).toNat
    ∧ ((slLoop (fun _ => .transientReject) 1 100 20 15 0 (1/100)).placed = false
      ∧ (15:ℚ) < (slLoop (fun _ => .transientReject) 1 100 20 15 0 (1/100)).finalPercent) :=
  ⟨(C2_bounded_retry (fun _ => .transientReject) 1 100 20 15 0 (1/100)).1,
   (C2_bounded_retry (fun _ => .transientReject) 1 100 20 15 0 (1/100)).2.1,
   (C2_bounded_retry (fun _ => .transientReject) 1 100 20 15 0 (1/100)).2.2
     (fun _ => rfl) (by decide)⟩

/-- C10: Asymmetric detection of an existing stop: with one open order of
type STOP (not STOP_MARKET) and a nonflat position,
check_and_create_stop_loss does not count it as an existing stop and
proceeds into the placement loop, and when the exchange accepts and the
start percent is within the cap it places one additional STOP_MARKET order,
whereas update_dynamic_stop_loss recognises the same order as the current
stop to compare against and replace. -/
theorem C10_stop_detection_asymmetry (o : OpenOrder) (pos : PositionRow)
    (resp : ℕ → SLResp) (start cap lev : ℚ)
    (hty : o.type = "STOP") (hamt : pos.positionAmt ≠ 0) :
    has_stop_loss [o] = false
    ∧ check_and_create_stop_loss (.ok pos) (.ok [o]) resp start cap lev
        = .ran (slLoop resp pos.positionAmt pos.entryPrice lev cap 0 start)
    ∧ currentSlOrder [o] = some o
    ∧ (resp 0 = .success → start ≤ cap → lev ≠ 0 →
        (slLoop resp pos.positionAmt pos.entryPrice lev cap 0 start).placed = true
        ∧ (slLoop resp pos.positionAmt pos.entryPrice lev cap 0 start).attempts
            = [⟨start, guardStopReq pos.positionAmt pos.entryPrice lev start⟩]
        ∧ (guardStopReq pos.positionAmt pos.entryPrice lev start).type = "STOP_MARKET") := by
  have hdetect : has_stop_loss [o] = false := by
    simp [has_stop_loss, hty]
  refine ⟨hdetect, ?_, ?_, ?_⟩
  · simp only [check_and_create_stop_loss]
    rw [if_neg hamt, if_neg (by rw [hdetect]; exact Bool.false_ne_true)]
  · simp [currentSlOrder, List.find?, isStopType, hty]
  · intro hr hcap hlev
    unfold slLoop
    rw [dif_pos hcap, if_neg hlev]
    simp only [hr]
    refine ⟨by trivial, by trivial, ?_⟩
    unfold guardStopReq
    split_ifs <;> rfl

theorem C10_stop_detection_asymmetry_witness :
    has_stop_loss [⟨1, "STOP", 95⟩] = false
    ∧ check_and_create_stop_loss (.ok ⟨"BTCUSDT", 1, 100, 20⟩) (.ok [⟨1, "STOP", 95⟩])
        (fun _ => .success) (1/100) 15 20
        = .ran (slLoop (fun _ => .success) 1 100 20 15 0 (1/100))
    ∧ currentSlOrder [⟨1, "STOP", 95⟩] = some ⟨1, "STOP", 95⟩
    ∧ ((slLoop (fun _ => .success) 1 100 20 15 0 (1/100)).placed = true
      ∧ (slLoop (fun _ => .success) 1 100 20 15 0 (1/100)).attempts
          = [⟨1/100, guardStopReq 1 100 20 (1/100)⟩]
      ∧ (guardStopReq 1 100 20 (1/100)).type = "STOP_MARKET") := by
  have h := C10_stop_detection_asymmetry ⟨1, "STOP", 95⟩ ⟨"BTCUSDT", 1, 100, 20⟩
    (fun _ => .success) (1/100) 15 20 rfl (by decide)
  exact ⟨h.1, h.2.1, h.2.2.1, h.2.2.2 rfl (by decide) (by decide)⟩
